import Mathlib

/-!
Verification development for the zod-schema generator of api-platform/zod.

The generator translates api-doc-parser resource metadata into zod schemas:
`fieldToZod` maps one field, `resourceToSchema` maps one resource to a loose
object schema, `collectionSchema` wraps an item schema into a Hydra
collection envelope, `stripHydraPrefix` normalizes namespaced keys, and
`schemasFromResources` runs the two-pass graph resolution.

Shallow embedding conventions:
* JavaScript runtime values are modelled by `JSValue` (objects as ordered
  key-value lists in enumeration order, numbers as rationals).
* zod schema values are modelled by the `Schema` AST, one constructor per
  zod combinator used by the source.  The behaviour of the external zod
  validation engine is given by the fuelled checker `check`; a thrown
  JavaScript exception (dereferencing a `z.lazy` whose getter yields
  `undefined` or the `null` placeholder) is the result `CRes.thrown`,
  distinct from a mere validation failure `CRes.fail`.
* Optional JavaScript attributes are `Option` fields; JavaScript falsy
  fallback `a || b` on strings (which also skips the empty string) is
  `jsOrS`; the specification writes this operator as `??`.
* Fallible behaviour is explicit: `check` returns a result variant, never
  an exception.
-/

namespace ApiZod

/-- A JavaScript runtime value (the JSON-ish fragment the library touches).
Object entries are listed in enumeration order; `undef` is `undefined`. -/
inductive JSValue where
  | null
  | undef
  | bool (b : Bool)
  | num (q : Rat)
  | str (s : String)
  | arr (elems : List JSValue)
  | obj (entries : List (String × JSValue))
deriving Repr

/-- First-match lookup in an ordered association list, as JavaScript
property access `o[k]` (returns `none` for an absent key). -/
def jsLookup (l : List (String × α)) (k : String) : Option α :=
  match l with
  | [] => none
  | (k1, v) :: rest => if k1 = k then some v else jsLookup rest k

/-- JavaScript property assignment `o[k] = v` on an ordered association
list: overwrites in place (the key keeps its original position), else
appends at the end. -/
def objSet (l : List (String × α)) (k : String) (v : α) : List (String × α) :=
  match l with
  | [] => [(k, v)]
  | (k1, v1) :: rest => if k1 = k then (k, v) :: rest else (k1, v1) :: objSet rest k v

/-- Build an object from a list of entries in order, later entries
overwriting earlier ones with the same key (JavaScript object literal /
assignment semantics). -/
def objFromEntries (l : List (String × α)) : List (String × α) :=
  l.foldl (fun acc e => objSet acc e.1 e.2) []

/-- Key transformation of `stripHydraPrefix`: remove a leading `hydra:`
(six characters) from the key, once; other keys are unchanged.  Inlined in
the source as `key.startsWith("hydra:") ? key.slice(6) : key`; the prefix
test and the six-character `slice` are taken on the character sequence of
the key. -/
def stripKey (k : String) : String :=
  if "hydra:".data.isPrefixOf k.data then String.mk (k.data.drop 6) else k

mutual
/-- Recursively strip the `hydra:` prefix from object keys
(`stripHydraPrefix` in src/index.js).  Arrays are mapped elementwise;
non-object, non-array values are returned unchanged. -/
def stripHydraPrefix : JSValue → JSValue
  | .null => .null
  | .undef => .undef
  | .bool b => .bool b
  | .num q => .num q
  | .str s => .str s
  | .arr xs => .arr (stripArr xs)
  | .obj kvs => .obj (objFromEntries (stripMembers kvs))

/-- Elementwise recursion of `stripHydraPrefix` over an array. -/
def stripArr : List JSValue → List JSValue
  | [] => []
  | x :: xs => stripHydraPrefix x :: stripArr xs

/-- Entrywise recursion of `stripHydraPrefix` over object entries: each
key is stripped and each value recursively processed; the enclosing
`objFromEntries` realizes the overwriting assignment `out[stripped] = v`. -/
def stripMembers : List (String × JSValue) → List (String × JSValue)
  | [] => []
  | (k, v) :: rest => (stripKey k, stripHydraPrefix v) :: stripMembers rest
end

/-- String format refinements attached to `z.string()` by the source
(`.email() .url() .uuid() .date() .datetime() .time()`).  Their concrete
format checkers belong to the external zod engine and stay abstract: the
checker `check` takes a format oracle as a parameter. -/
inductive StrFormat where
  | email
  | url
  | uuid
  | date
  | dateTime
  | time
deriving Repr, DecidableEq

/-- The zod schema AST: one constructor per zod combinator the source
uses.  `int lo hi` is `z.int()` with the optional `.min`/`.max` bounds,
`lazyRef nm` is `z.lazy(() => schemaMap[nm])` (the captured map is the
resolution context supplied to the checker), `looseObject` is
`z.looseObject` over an ordered shape, and `preStrip s` is
`z.preprocess(stripHydraPrefix, s)`. -/
inductive Schema where
  | string
  | strFmt (f : StrFormat)
  | int (lo hi : Option Int)
  | number
  | boolean
  | literal (v : Option String)
  | enum (vs : List String)
  | lazyRef (nm : Option String)
  | array (elem : Schema)
  | nullable (s : Schema)
  | optional (s : Schema)
  | looseObject (shape : List (String × Schema))
  | preStrip (s : Schema)
deriving Repr

/-- The resolution context: the `schemaMap` object mapping a resource
title to `null` (pass-1 placeholder, `some none` here) or a finished
schema.  An absent key is `none`. -/
def SchemaMap := List (String × Option Schema)

/-- JavaScript truthiness of an optional string: `undefined` and the empty
string are falsy. -/
def jsTruthyS : Option String → Bool
  | some s => s != ""
  | none => false

/-- JavaScript falsy fallback `a || b` on optional strings: keeps `a` when
it is truthy, else yields `b`.  The specification writes this fallback
operator as `??`. -/
def jsOrS (a b : Option String) : Option String :=
  if jsTruthyS a then a else b

/-- `STRING_TYPES` of src/field.js. -/
def STRING_TYPES : List String :=
  ["string", "password", "byte", "binary", "hexBinary", "base64Binary", "duration"]

/-- `INTEGER_TYPES` of src/field.js. -/
def INTEGER_TYPES : List String :=
  ["integer", "positiveInteger", "negativeInteger", "nonNegativeInteger",
   "nonPositiveInteger"]

/-- `NUMBER_TYPES` of src/field.js. -/
def NUMBER_TYPES : List String := ["number", "decimal", "double", "float"]

/-- `integerWithConstraints` of src/field.js: the bounded integer rows of
the base-type table. -/
def integerWithConstraints (fieldType : String) : Schema :=
  match fieldType with
  | "positiveInteger" => .int (some 1) none
  | "negativeInteger" => .int none (some (-1))
  | "nonNegativeInteger" => .int (some 0) none
  | "nonPositiveInteger" => .int none (some 0)
  | _ => .int none none

/-- `baseTypeToZod` of src/field.js: the base-type mapping table, with
`z.string()` as the default row. -/
def baseTypeToZod (fieldType : String) : Schema :=
  if STRING_TYPES.contains fieldType then .string
  else if INTEGER_TYPES.contains fieldType then integerWithConstraints fieldType
  else if NUMBER_TYPES.contains fieldType then .number
  else
    match fieldType with
    | "email" => .strFmt .email
    | "url" => .strFmt .url
    | "uuid" => .strFmt .uuid
    | "boolean" => .boolean
    | "date" => .strFmt .date
    | "dateTime" => .strFmt .dateTime
    | "time" => .strFmt .time
    | _ => .string

/-- The object carried by `field.embedded` (and `field.reference`): the
target resource record, of which only `name` and `title` are read. -/
structure EmbeddedResource where
  name : Option String := none
  title : Option String := none
deriving Repr

/-- An api-doc-parser Field record.  Every attribute is optional
(`none` = the attribute is absent / `undefined`); `maxCardinality` is
`some none` when the attribute is present with value `null` and
`some (some k)` when it is the number `k`. -/
structure Field where
  name : Option String := none
  type : Option String := none
  range : Option String := none
  required : Option Bool := none
  nullable : Option Bool := none
  enum : Option (List String) := none
  reference : Option EmbeddedResource := none
  embedded : Option EmbeddedResource := none
  maxCardinality : Option (Option Int) := none
  arrayType : Option String := none
deriving Repr

/-- An api-doc-parser Resource record. -/
structure Resource where
  name : Option String := none
  title : Option String := none
  fields : Option (List Field) := none
  readableFields : Option (List Field) := none
deriving Repr

/-- Base-schema selection of `fieldToZod` (the first `if/else` chain of
src/field.js, before the cardinality/nullable/optional wrappers):
`field.enum`, then `field.reference`, then `field.embedded`, then the
base-type mapping of `field.type || field.range || "string"`.  An object
attribute (`reference`, `embedded`, `enum` arrays included) is truthy
whenever present. -/
def fieldBaseSchema (field : Field) : Schema :=
  match field.enum with
  | some vs => .enum vs
  | none =>
    match field.reference with
    | some _ => .string
    | none =>
      match field.embedded with
      | some e => .lazyRef (jsOrS e.title e.name)
      | none =>
        baseTypeToZod ((jsOrS field.type (jsOrS field.range (some "string"))).getD "string")

/-- `fieldToZod` of src/field.js.  The base schema is post-processed in
the fixed order of the source: array wrap when `maxCardinality` is present
and not `1` (element type `baseTypeToZod(field.arrayType)` when
`arrayType` is truthy, else the already-computed schema), then
`z.nullable` when `nullable` is `true`, then `z.optional` when `required`
is exactly `false`.  The `schemaMap` argument is captured by `z.lazy`
closures in the source; in this embedding the same map is supplied to the
checker as the resolution context, so it is not stored in the AST. -/
def fieldToZod (field : Field) (schemaMap : SchemaMap := []) : Schema :=
  let _ := schemaMap
  let schema := fieldBaseSchema field
  let schema :=
    match field.maxCardinality with
    | some mc =>
      if mc ≠ some 1 then
        Schema.array
          (if jsTruthyS field.arrayType then baseTypeToZod (field.arrayType.getD "")
           else schema)
      else schema
    | none => schema
  let schema := if field.nullable = some true then Schema.nullable schema else schema
  if field.required = some false then Schema.optional schema else schema

/-- Key under which a field is stored in the shape: `field.name`, which
JavaScript coerces to the string "undefined" when absent. -/
def fieldKey (f : Field) : String := f.name.getD "undefined"

/-- Field list used by `resourceToSchema`:
`resource.readableFields || resource.fields || []` (an array, even empty,
is truthy). -/
def resourceFields (resource : Resource) : List Field :=
  match resource.readableFields with
  | some fs => fs
  | none =>
    match resource.fields with
    | some fs => fs
    | none => []

/-- Shape built by `resourceToSchema` of src/resource.js: the fixed
entries `@id` and `@type` followed by one assignment `shape[name] = ...`
per field (overwriting semantics via `objSet`). -/
def resourceShape (resource : Resource) (schemaMap : SchemaMap) : List (String × Schema) :=
  (resourceFields resource).foldl
    (fun sh f => objSet sh (fieldKey f) (fieldToZod f schemaMap))
    [("@id", Schema.string), ("@type", Schema.literal (jsOrS resource.title resource.name))]

/-- `resourceToSchema` of src/resource.js: a `z.looseObject` over
`resourceShape`. -/
def resourceToSchema (resource : Resource) (schemaMap : SchemaMap := []) : Schema :=
  .looseObject (resourceShape resource schemaMap)

/-- `collectionSchema` of src/collection.js: the Hydra collection
envelope around an item schema. -/
def collectionSchema (itemSchema : Schema) : Schema :=
  .looseObject
    [("@id", .string),
     ("@type", .string),
     ("totalItems", .int none none),
     ("member", .array itemSchema),
     ("view", .optional (.looseObject
        [("@id", .string),
         ("@type", .string),
         ("first", .optional .string),
         ("last", .optional .string),
         ("previous", .optional .string),
         ("next", .optional .string)])),
     ("search", .optional (.looseObject
        [("@type", .string),
         ("template", .optional .string),
         ("variableRepresentation", .optional .string),
         ("mapping", .optional (.array (.looseObject
            [("@type", .string),
             ("variable", .string),
             ("property", .optional (.nullable .string)),
             ("required", .optional .boolean)])))]))]

/-- Title key of a resource in the resolution context:
`resource.title || resource.name` (pass 1 and 2 of
`schemasFromResources`). -/
def resourceKeyTitle (r : Resource) : String :=
  (jsOrS r.title r.name).getD "undefined"

/-- Name key of a resource in the output maps: `resource.name || title`
where `title = resource.title || resource.name`. -/
def resourceKeyName (r : Resource) : String :=
  (jsOrS r.name (jsOrS r.title r.name)).getD "undefined"

/-- Pass 1 of `schemasFromResources`: register a `null` placeholder in the
resolution context for the title of every resource. -/
def registerPlaceholders (resources : List Resource) : SchemaMap :=
  resources.foldl (fun m r => objSet m (resourceKeyTitle r) none) []

/-- Result of `schemasFromResources`: the final resolution context
(`schemaMap`, keyed by title), the finished schemas keyed by name, and
the collection schemas keyed by name. -/
structure SchemasOut where
  schemaMap : SchemaMap
  schemas : List (String × Schema)
  collections : List (String × Schema)

/-- `schemasFromResources` of src/index.js.  Pass 1 registers `null`
placeholders keyed by title; pass 2 builds each schema and overwrites the
placeholder (the same map, completed, is the context the `z.lazy`
closures consult at validation time); pass 3 wraps each finished schema
(looked up by name) in `z.preprocess(stripHydraPrefix, collectionSchema(...))`.
The `getD Schema.string` branch of the pass-3 lookup is unreachable: pass
2 records a schema under the name key of every resource. -/
def schemasFromResources (resources : List Resource) : SchemasOut :=
  let schemaMap0 := registerPlaceholders resources
  let built := resources.foldl
    (fun (acc : SchemaMap × List (String × Schema)) r =>
      let schema := resourceToSchema r acc.1
      (objSet acc.1 (resourceKeyTitle r) (some schema),
       objSet acc.2 (resourceKeyName r) schema))
    (schemaMap0, [])
  let collections := resources.foldl
    (fun cs r =>
      objSet cs (resourceKeyName r)
        (Schema.preStrip (collectionSchema
          ((jsLookup built.2 (resourceKeyName r)).getD Schema.string))))
    []
  { schemaMap := built.1, schemas := built.2, collections := collections }

/-- Result of checking one value against one schema.  `ok out` is a
successful `safeParse` carrying the output data, `fail` an unsuccessful
one, `thrown` a JavaScript exception escaping the parse (the `z.lazy`
getter produced `undefined` or the `null` placeholder), `nofuel` an
exhausted step budget of this embedding. -/
inductive CRes where
  | ok (out : JSValue)
  | fail
  | thrown
  | nofuel
deriving Repr

/-- Result of checking the elements of an array. -/
inductive ARes where
  | ok (outs : List JSValue)
  | fail
  | thrown
  | nofuel
deriving Repr

/-- Result of checking the declared entries of a shape. -/
inductive SRes where
  | ok (outs : List (String × JSValue))
  | fail
  | thrown
  | nofuel
deriving Repr

/-- Combine the result of one array element with the result of the
remaining elements.  As in zod, a validation failure of one element does
not stop the iteration over the rest, but an exception thrown by any
element escapes the whole parse. -/
def aCons (r : CRes) (rest : ARes) : ARes :=
  match r, rest with
  | .thrown, _ => .thrown
  | .nofuel, _ => .nofuel
  | .ok o, .ok os => .ok (o :: os)
  | .ok _, .fail => .fail
  | .ok _, .thrown => .thrown
  | .ok _, .nofuel => .nofuel
  | .fail, .thrown => .thrown
  | .fail, .nofuel => .nofuel
  | .fail, _ => .fail

/-- Check every element of an array with `rc`, keeping the outputs. -/
def arrGo (rc : JSValue → CRes) : List JSValue → ARes
  | [] => .ok []
  | x :: xs => aCons (rc x) (arrGo rc xs)

/-- Combine the result of one declared shape entry (for key `k`) with the
result of the remaining entries; same failure/exception policy as
`aCons`. -/
def sCons (k : String) (r : CRes) (rest : SRes) : SRes :=
  match r, rest with
  | .thrown, _ => .thrown
  | .nofuel, _ => .nofuel
  | .ok o, .ok os => .ok ((k, o) :: os)
  | .ok _, .fail => .fail
  | .ok _, .thrown => .thrown
  | .ok _, .nofuel => .nofuel
  | .fail, .thrown => .thrown
  | .fail, .nofuel => .nofuel
  | .fail, _ => .fail

/-- Check the declared entries of a shape against an object: each shape
key is looked up in the value (an absent key checks as `undefined`).
Unknown keys of the value are not touched (loose objects). -/
def shapeGo (rc : Schema → JSValue → CRes) (kvs : List (String × JSValue)) :
    List (String × Schema) → SRes
  | [] => .ok []
  | (k, s) :: rest => sCons k (rc s ((jsLookup kvs k).getD .undef)) (shapeGo rc kvs rest)

/-- Output object of a successful loose-object parse: the input entries
in order, with the parsed output substituted for the declared keys;
unknown keys pass through unchanged, and declared keys absent from the
input stay absent. -/
def substEntries (kvs outs : List (String × JSValue)) : List (String × JSValue) :=
  kvs.map (fun e => (e.1, (jsLookup outs e.1).getD e.2))

/-- One evaluation step of the zod checker over the schema AST, with `rc`
checking every sub-problem.  `fmtOK` is the abstract format oracle of the
external engine for the string-format refinements; `ctx` is the
resolution context consulted by `z.lazy` getters — a missing entry or a
`null` pass-1 placeholder makes the getter produce a non-schema and the
engine throw. -/
def checkStep (fmtOK : StrFormat → String → Bool) (ctx : SchemaMap)
    (rc : Schema → JSValue → CRes) : Schema → JSValue → CRes
  | .string, v =>
    match v with
    | .str _ => .ok v
    | _ => .fail
  | .strFmt f, v =>
    match v with
    | .str s => if fmtOK f s then .ok v else .fail
    | _ => .fail
  | .int lo hi, v =>
    match v with
    | .num q =>
      if q.den = 1 ∧ (∀ b ∈ lo, b ≤ q.num) ∧ (∀ b ∈ hi, q.num ≤ b) then .ok v
      else .fail
    | _ => .fail
  | .number, v =>
    match v with
    | .num _ => .ok v
    | _ => .fail
  | .boolean, v =>
    match v with
    | .bool _ => .ok v
    | _ => .fail
  | .literal lit, v =>
    match lit with
    | some t =>
      match v with
      | .str s => if s = t then .ok v else .fail
      | _ => .fail
    | none =>
      match v with
      | .undef => .ok v
      | _ => .fail
  | .enum vs, v =>
    match v with
    | .str s => if vs.contains s then .ok v else .fail
    | _ => .fail
  | .lazyRef nm, v =>
    match jsLookup ctx (nm.getD "undefined") with
    | some (some target) => rc target v
    | some none => .thrown
    | none => .thrown
  | .array elem, v =>
    match v with
    | .arr xs =>
      match arrGo (rc elem) xs with
      | .ok os => .ok (.arr os)
      | .fail => .fail
      | .thrown => .thrown
      | .nofuel => .nofuel
    | _ => .fail
  | .nullable s, v =>
    match v with
    | .null => .ok .null
    | _ => rc s v
  | .optional s, v =>
    match v with
    | .undef => .ok .undef
    | _ => rc s v
  | .looseObject shape, v =>
    match v with
    | .obj kvs =>
      match shapeGo rc kvs shape with
      | .ok outs => .ok (.obj (substEntries kvs outs))
      | .fail => .fail
      | .thrown => .thrown
      | .nofuel => .nofuel
    | _ => .fail
  | .preStrip s, v => rc s (stripHydraPrefix v)

/-- The fuelled zod checker: `check fmtOK ctx fuel s v` is the result of
`z.safeParse(s, v)` with resolution context `ctx` and format oracle
`fmtOK`.  Each AST node consumes one unit of fuel; any finite value
checks within fuel proportional to its depth. -/
def check (fmtOK : StrFormat → String → Bool) (ctx : SchemaMap) :
    Nat → Schema → JSValue → CRes
  | 0 => fun _ _ => .nofuel
  | fuel + 1 => checkStep fmtOK ctx (check fmtOK ctx fuel)

theorem check_zero (fmtOK : StrFormat → String → Bool) (ctx : SchemaMap)
    (s : Schema) (v : JSValue) : check fmtOK ctx 0 s v = .nofuel := rfl

theorem check_succ (fmtOK : StrFormat → String → Bool) (ctx : SchemaMap)
    (fuel : Nat) : check fmtOK ctx (fuel + 1) = checkStep fmtOK ctx (check fmtOK ctx fuel) :=
  rfl

theorem jsLookup_objSet_self (l : List (String × α)) (k : String) (v : α) :
    jsLookup (objSet l k v) k = some v := by
  induction l with
  | nil => simp [objSet, jsLookup]
  | cons e rest ih =>
    obtain ⟨k1, v1⟩ := e
    by_cases h : k1 = k
    · subst h; simp [objSet, jsLookup]
    · simp [objSet, jsLookup, h, ih]

theorem jsLookup_objSet_ne (l : List (String × α)) (k k2 : String) (v : α)
    (h : k2 ≠ k) : jsLookup (objSet l k v) k2 = jsLookup l k2 := by
  induction l with
  | nil => simp [objSet, jsLookup, Ne.symm h]
  | cons e rest ih =>
    obtain ⟨k1, v1⟩ := e
    by_cases h1 : k1 = k
    · subst h1
      simp [objSet, jsLookup, Ne.symm h]
    · simp only [objSet, if_neg h1, jsLookup]
      by_cases h2 : k1 = k2 <;> simp [h2, ih]

theorem objSet_of_not_mem (l : List (String × α)) (k : String) (v : α)
    (h : k ∉ l.map Prod.fst) : objSet l k v = l ++ [(k, v)] := by
  induction l with
  | nil => simp [objSet]
  | cons e rest ih =>
    obtain ⟨k1, v1⟩ := e
    simp only [List.map_cons, List.mem_cons] at h
    push_neg at h
    simp [objSet, Ne.symm h.1, ih h.2]

theorem jsLookup_append (l1 l2 : List (String × α)) (k : String) :
    jsLookup (l1 ++ l2) k = (jsLookup l1 k).or (jsLookup l2 k) := by
  induction l1 with
  | nil => simp [jsLookup]
  | cons e rest ih =>
    obtain ⟨k1, v1⟩ := e
    by_cases h : k1 = k <;> simp [jsLookup, h, ih]

theorem jsLookup_eq_none_of_not_mem (l : List (String × α)) (k : String)
    (h : k ∉ l.map Prod.fst) : jsLookup l k = none := by
  induction l with
  | nil => rfl
  | cons e rest ih =>
    obtain ⟨k1, v1⟩ := e
    simp only [List.map_cons, List.mem_cons] at h
    push_neg at h
    simp [jsLookup, Ne.symm h.1, ih h.2]

theorem mem_of_jsLookup_eq_some (l : List (String × α)) (k : String) (v : α)
    (h : jsLookup l k = some v) : (k, v) ∈ l := by
  induction l with
  | nil => simp [jsLookup] at h
  | cons e rest ih =>
    obtain ⟨k1, v1⟩ := e
    by_cases h1 : k1 = k
    · subst h1
      simp [jsLookup] at h
      simp [h]
    · simp only [jsLookup, if_neg h1] at h
      exact List.mem_cons_of_mem _ (ih h)

theorem aCons_eq_ok_iff (r : CRes) (rest : ARes) (outs : List JSValue) :
    aCons r rest = .ok outs ↔
      ∃ o os, r = .ok o ∧ rest = .ok os ∧ outs = o :: os := by
  cases r <;> cases rest <;> simp [aCons] <;> tauto

theorem sCons_eq_ok_iff (k : String) (r : CRes) (rest : SRes)
    (outs : List (String × JSValue)) :
    sCons k r rest = .ok outs ↔
      ∃ o os, r = .ok o ∧ rest = .ok os ∧ outs = (k, o) :: os := by
  cases r <;> cases rest <;> simp [sCons] <;> tauto

theorem shapeGo_ok_keys (rc : Schema → JSValue → CRes)
    (kvs : List (String × JSValue)) (shape : List (String × Schema))
    (outs : List (String × JSValue)) (h : shapeGo rc kvs shape = .ok outs) :
    outs.map Prod.fst = shape.map Prod.fst := by
  induction shape generalizing outs with
  | nil =>
    simp only [shapeGo, SRes.ok.injEq] at h
    simp [← h]
  | cons e rest ih =>
    obtain ⟨k, s⟩ := e
    simp only [shapeGo] at h
    obtain ⟨o, os, _, h2, houts⟩ := (sCons_eq_ok_iff ..).mp h
    subst houts
    simp [ih _ h2]

theorem shapeGo_ok_mem (rc : Schema → JSValue → CRes)
    (kvs : List (String × JSValue)) (shape : List (String × Schema))
    (outs : List (String × JSValue)) (k : String) (s : Schema)
    (h : shapeGo rc kvs shape = .ok outs) (hmem : (k, s) ∈ shape) :
    ∃ o, rc s ((jsLookup kvs k).getD .undef) = .ok o := by
  induction shape generalizing outs with
  | nil => simp at hmem
  | cons e rest ih =>
    obtain ⟨k1, s1⟩ := e
    simp only [shapeGo] at h
    obtain ⟨o, os, h1, h2, _⟩ := (sCons_eq_ok_iff ..).mp h
    rcases List.mem_cons.mp hmem with heq | hmem2
    · rw [show k = k1 from congrArg Prod.fst heq, show s = s1 from congrArg Prod.snd heq]
      exact ⟨o, h1⟩
    · exact ih _ h2 hmem2

theorem shapeGo_append_extra (rc : Schema → JSValue → CRes)
    (kvs : List (String × JSValue)) (k : String) (w : JSValue)
    (shape : List (String × Schema)) (h : k ∉ shape.map Prod.fst) :
    shapeGo rc (kvs ++ [(k, w)]) shape = shapeGo rc kvs shape := by
  induction shape with
  | nil => rfl
  | cons e rest ih =>
    obtain ⟨k1, s1⟩ := e
    simp only [List.map_cons, List.mem_cons] at h
    push_neg at h
    have hlk : jsLookup (kvs ++ [(k, w)]) k1 = jsLookup kvs k1 := by
      rw [jsLookup_append]
      cases h1 : jsLookup kvs k1 with
      | some v => rfl
      | none => simp [jsLookup, h.1, Ne.symm h.1]
    simp [shapeGo, hlk, ih h.2]

theorem arrGo_ok_of_all (rc : JSValue → CRes) (xs : List JSValue)
    (h : ∀ x ∈ xs, ∃ o, rc x = .ok o) : ∃ os, arrGo rc xs = .ok os := by
  induction xs with
  | nil => exact ⟨[], rfl⟩
  | cons x rest ih =>
    obtain ⟨o, ho⟩ := h x (List.mem_cons_self x rest)
    obtain ⟨os, hos⟩ := ih (fun y hy => h y (List.mem_cons_of_mem _ hy))
    exact ⟨o :: os, by simp [arrGo, ho, hos, aCons]⟩

/-- C1: for every field record, `fieldToZod` picks exactly one base schema
by the fixed precedence enum, then reference (a plain string schema), then
embedded (a deferred reference bound to `embedded.title ?? embedded.name`,
where `??` is the falsy fallback the source writes `||`), then the
base-type mapping; a deferred reference is resolved lazily against the
resolution context at check time.  The fifth conjunct ties the base
selection to `fieldToZod` when no post-processing wrapper applies. -/
theorem C1_field_precedence :
    ∀ (f : Field) (m : SchemaMap),
      (∀ vs, f.enum = some vs → fieldBaseSchema f = .enum vs) ∧
      (∀ r, f.enum = none → f.reference = some r → fieldBaseSchema f = .string) ∧
      (∀ e, f.enum = none → f.reference = none → f.embedded = some e →
        fieldBaseSchema f = .lazyRef (jsOrS e.title e.name)) ∧
      (f.enum = none → f.reference = none → f.embedded = none →
        fieldBaseSchema f =
          baseTypeToZod ((jsOrS f.type (jsOrS f.range (some "string"))).getD "string")) ∧
      (f.maxCardinality = none → f.nullable ≠ some true → f.required ≠ some false →
        fieldToZod f m = fieldBaseSchema f) ∧
      (∀ (fmtOK : StrFormat → String → Bool) (ctx : SchemaMap) (n : Nat)
        (nm : Option String) (target : Schema) (v : JSValue),
        jsLookup ctx (nm.getD "undefined") = some (some target) →
        check fmtOK ctx (n + 1) (.lazyRef nm) v = check fmtOK ctx n target v) := by
  intro f m
  refine ⟨?_, ?_, ?_, ?_, ?_, ?_⟩
  · intro vs h
    simp [fieldBaseSchema, h]
  · intro r h1 h2
    simp [fieldBaseSchema, h1, h2]
  · intro e h1 h2 h3
    simp [fieldBaseSchema, h1, h2, h3]
  · intro h1 h2 h3
    simp [fieldBaseSchema, h1, h2, h3]
  · intro h1 h2 h3
    simp [fieldToZod, h1, h2, h3]
  · intro fmtOK ctx n nm target v h
    simp [check_succ, checkStep, h]

/-- Witness for C1 at a concrete enum field. -/
theorem C1_field_precedence_witness :
    fieldBaseSchema { enum := some ["draft", "published", "archived"] }
      = .enum ["draft", "published", "archived"] :=
  (C1_field_precedence { enum := some ["draft", "published", "archived"] } []).1
    ["draft", "published", "archived"] rfl

/-- C2: the base-type mapping realizes the table of the specification:
the seven string-family tags map to a plain string schema, the six format
tags to a string schema with the matching refinement, the five integer
tags to the (un)bounded integer schemas, the four number tags to the
number schema, boolean to the boolean schema, and every other tag to a
plain string schema.  The final block checks the bounded integers reject
the boundary-violating side. -/
theorem C2_base_type_mapping :
    (baseTypeToZod "string" = .string ∧ baseTypeToZod "password" = .string ∧
     baseTypeToZod "byte" = .string ∧ baseTypeToZod "binary" = .string ∧
     baseTypeToZod "hexBinary" = .string ∧ baseTypeToZod "base64Binary" = .string ∧
     baseTypeToZod "duration" = .string) ∧
    (baseTypeToZod "email" = .strFmt .email ∧ baseTypeToZod "url" = .strFmt .url ∧
     baseTypeToZod "uuid" = .strFmt .uuid ∧ baseTypeToZod "date" = .strFmt .date ∧
     baseTypeToZod "dateTime" = .strFmt .dateTime ∧
     baseTypeToZod "time" = .strFmt .time) ∧
    (baseTypeToZod "integer" = .int none none ∧
     baseTypeToZod "positiveInteger" = .int (some 1) none ∧
     baseTypeToZod "negativeInteger" = .int none (some (-1)) ∧
     baseTypeToZod "nonNegativeInteger" = .int (some 0) none ∧
     baseTypeToZod "nonPositiveInteger" = .int none (some 0)) ∧
    (baseTypeToZod "number" = .number ∧ baseTypeToZod "decimal" = .number ∧
     baseTypeToZod "double" = .number ∧ baseTypeToZod "float" = .number) ∧
    baseTypeToZod "boolean" = .boolean ∧
    (∀ fmtOK ctx,
      check fmtOK ctx 1 (baseTypeToZod "positiveInteger") (.num 1) = .ok (.num 1) ∧
      check fmtOK ctx 1 (baseTypeToZod "positiveInteger") (.num 0) = .fail ∧
      check fmtOK ctx 1 (baseTypeToZod "positiveInteger") (.num (-1)) = .fail ∧
      check fmtOK ctx 1 (baseTypeToZod "nonNegativeInteger") (.num 0) = .ok (.num 0) ∧
      check fmtOK ctx 1 (baseTypeToZod "nonNegativeInteger") (.num (-1)) = .fail ∧
      check fmtOK ctx 1 (baseTypeToZod "negativeInteger") (.num (-1)) = .ok (.num (-1)) ∧
      check fmtOK ctx 1 (baseTypeToZod "negativeInteger") (.num 0) = .fail ∧
      check fmtOK ctx 1 (baseTypeToZod "nonPositiveInteger") (.num 0) = .ok (.num 0) ∧
      check fmtOK ctx 1 (baseTypeToZod "nonPositiveInteger") (.num 1) = .fail) ∧
    ∀ t : String,
      t ∉ (["string", "password", "byte", "binary", "hexBinary", "base64Binary",
            "duration", "email", "url", "uuid", "date", "dateTime", "time",
            "integer", "positiveInteger", "negativeInteger", "nonNegativeInteger",
            "nonPositiveInteger", "number", "decimal", "double", "float",
            "boolean"] : List String) →
      baseTypeToZod t = .string := by
  refine ⟨⟨rfl, rfl, rfl, rfl, rfl, rfl, rfl⟩,
          ⟨rfl, rfl, rfl, rfl, rfl, rfl⟩,
          ⟨rfl, rfl, rfl, rfl, rfl⟩,
          ⟨rfl, rfl, rfl, rfl⟩, rfl,
          fun fmtOK ctx => ⟨rfl, rfl, rfl, rfl, rfl, rfl, rfl, rfl, rfl⟩, ?_⟩
  intro t ht
  simp only [List.mem_cons, List.not_mem_nil, or_false, not_or] at ht
  obtain ⟨n1, n2, n3, n4, n5, n6, n7, n8, n9, n10, n11, n12, n13, n14, n15, n16,
    n17, n18, n19, n20, n21, n22, n23⟩ := ht
  simp [baseTypeToZod, STRING_TYPES, INTEGER_TYPES, NUMBER_TYPES, n1, n2, n3, n4,
    n5, n6, n7, n8, n9, n10, n11, n12, n13, n14, n15, n16, n17, n18, n19, n20,
    n21, n22, n23]

/-- Witness for C2 at a concrete unknown tag. -/
theorem C2_base_type_mapping_witness : baseTypeToZod "customTag" = .string :=
  C2_base_type_mapping.2.2.2.2.2.2 "customTag" (by decide)

/-- C3: schema construction is total over field records: `fieldToZod`
always yields a schema, and in the no-enum/reference/embedded case it uses
the tag `field.type ?? field.range ?? "string"` (`??` being the falsy
fallback the source writes `||`), so an absent type and range yields the
plain string schema and a truthy unrecognized tag falls into the default
string row of the base-type table. -/
theorem C3_total_with_string_fallback :
    ∀ (f : Field) (m : SchemaMap),
      (∃ s, fieldToZod f m = s) ∧
      (f.enum = none → f.reference = none → f.embedded = none →
        fieldBaseSchema f =
          baseTypeToZod ((jsOrS f.type (jsOrS f.range (some "string"))).getD "string")) ∧
      (∀ t, f.enum = none → f.reference = none → f.embedded = none →
        f.type = some t → t ≠ "" → fieldBaseSchema f = baseTypeToZod t) ∧
      (f.enum = none → f.reference = none → f.embedded = none →
        f.type = none → f.range = none → fieldBaseSchema f = .string) := by
  intro f m
  refine ⟨⟨fieldToZod f m, rfl⟩, ?_, ?_, ?_⟩
  · intro h1 h2 h3
    simp [fieldBaseSchema, h1, h2, h3]
  · intro t h1 h2 h3 h4 h5
    simp [fieldBaseSchema, h1, h2, h3, h4, jsOrS, jsTruthyS, h5]
  · intro h1 h2 h3 h4 h5
    simp [fieldBaseSchema, h1, h2, h3, h4, h5, jsOrS, jsTruthyS, baseTypeToZod,
      STRING_TYPES]

/-- Witness for C3 at a field record with every attribute absent. -/
theorem C3_total_with_string_fallback_witness :
    fieldBaseSchema {} = .string :=
  (C3_total_with_string_fallback {} []).2.2.2 rfl rfl rfl rfl rfl

/-- C4: the post-processing wrappers of `fieldToZod` compose in the fixed
order array wrap (when `maxCardinality` is present and not 1, the element
being the base-type mapping of a truthy `arrayType`, else the
already-computed schema), then nullable wrap, then optional wrap, so an
optional nullable array is `optional (nullable (array _))`. -/
theorem C4_wrapper_order :
    ∀ (f : Field) (m : SchemaMap),
      (∀ mc, f.maxCardinality = some mc → mc ≠ some 1 → f.nullable = some true →
        f.required = some false → jsTruthyS f.arrayType = false →
        fieldToZod f m = .optional (.nullable (.array (fieldBaseSchema f)))) ∧
      (∀ mc, f.maxCardinality = some mc → mc ≠ some 1 → jsTruthyS f.arrayType = false →
        f.nullable ≠ some true → f.required ≠ some false →
        fieldToZod f m = .array (fieldBaseSchema f)) ∧
      (∀ mc t, f.maxCardinality = some mc → mc ≠ some 1 → f.arrayType = some t →
        t ≠ "" → f.nullable ≠ some true → f.required ≠ some false →
        fieldToZod f m = .array (baseTypeToZod t)) ∧
      (f.maxCardinality = some (some 1) → f.nullable ≠ some true →
        f.required ≠ some false → fieldToZod f m = fieldBaseSchema f) ∧
      (f.maxCardinality = none → f.nullable = some true → f.required ≠ some false →
        fieldToZod f m = .nullable (fieldBaseSchema f)) ∧
      (f.maxCardinality = none → f.nullable ≠ some true → f.required = some false →
        fieldToZod f m = .optional (fieldBaseSchema f)) := by
  intro f m
  refine ⟨?_, ?_, ?_, ?_, ?_, ?_⟩
  · intro mc h1 h2 h3 h4 h5
    simp [fieldToZod, h1, h2, h3, h4, h5]
  · intro mc h1 h2 h3 h4 h5
    simp [fieldToZod, h1, h2, h3, h4, h5]
  · intro mc t h1 h2 h3 h4 h5 h6
    simp [fieldToZod, h1, h2, h3, jsTruthyS, h4, h5, h6]
  · intro h1 h2 h3
    simp [fieldToZod, h1, h2, h3]
  · intro h1 h2 h3
    simp [fieldToZod, h1, h2, h3]
  · intro h1 h2 h3
    simp [fieldToZod, h1, h2, h3]

/-- Witness for C4: an optional nullable array of strings. -/
theorem C4_wrapper_order_witness :
    fieldToZod
      { type := some "string", maxCardinality := some none,
        nullable := some true, required := some false } []
      = .optional (.nullable (.array .string)) :=
  (C4_wrapper_order
      { type := some "string", maxCardinality := some none,
        nullable := some true, required := some false } []).1
    none rfl (by simp) rfl rfl rfl

/-- C10: `stripHydraPrefix` leaves every non-object, non-array value
unchanged, leaves keys that do not begin with `hydra:` unchanged, removes
exactly that six-character prefix (once only, so a key starting with a
double prefix keeps one), recurses into single-entry objects, and when
stripping makes two keys of an object equal, the later-enumerated value
silently overwrites the earlier one. -/
theorem C10_strip_hydra :
    (stripHydraPrefix .null = .null ∧ stripHydraPrefix .undef = .undef) ∧
    (∀ b, stripHydraPrefix (.bool b) = .bool b) ∧
    (∀ q, stripHydraPrefix (.num q) = .num q) ∧
    (∀ s, stripHydraPrefix (.str s) = .str s) ∧
    (∀ k, "hydra:".data.isPrefixOf k.data = false → stripKey k = k) ∧
    (∀ s : String, stripKey ("hydra:" ++ s) = s) ∧
    stripKey "hydra:hydra:x" = "hydra:x" ∧
    (∀ k v, stripHydraPrefix (.obj [(k, v)]) = .obj [(stripKey k, stripHydraPrefix v)]) ∧
    (∀ v1 v2, stripHydraPrefix (.obj [("hydra:x", v1), ("x", v2)])
        = .obj [("x", stripHydraPrefix v2)]) := by
  refine ⟨⟨by simp [stripHydraPrefix], by simp [stripHydraPrefix]⟩,
    fun b => by simp [stripHydraPrefix],
    fun q => by simp [stripHydraPrefix],
    fun s => by simp [stripHydraPrefix], ?_, ?_, by decide, ?_, ?_⟩
  · intro k h
    simp [stripKey, h]
  · intro s
    have hdata : ("hydra:" ++ s).data = "hydra:".data ++ s.data := String.data_append ..
    have hpre : "hydra:".data.isPrefixOf ("hydra:" ++ s).data = true := by
      rw [hdata]
      simp [List.isPrefixOf_iff_prefix]
    have hdrop : ("hydra:" ++ s).data.drop 6 = s.data := by
      rw [hdata]
      exact List.drop_left "hydra:".data s.data
    rw [stripKey, if_pos hpre, hdrop]
  · intro k v
    simp [stripHydraPrefix, stripMembers, objFromEntries, objSet]
  · intro v1 v2
    have h1 : stripKey "hydra:x" = "x" := by decide
    have h2 : stripKey "x" = "x" := by decide
    simp [stripHydraPrefix, stripMembers, objFromEntries, objSet, h1, h2]

/-- Witness for C10 at a key without the prefix. -/
theorem C10_strip_hydra_witness : stripKey "member" = "member" :=
  C10_strip_hydra.2.2.2.2.1 "member" (by decide)

/-- Every entry registered by pass 1 holds the `null` placeholder: looking
up the title of a registered resource in the pass-1 context yields
`some none`. -/
theorem placeholders_lookup (rs : List Resource) (m : SchemaMap) (k : String)
    (h : jsLookup m k = some none ∨ ∃ r ∈ rs, resourceKeyTitle r = k) :
    jsLookup (rs.foldl (fun m2 r => objSet m2 (resourceKeyTitle r) none) m) k
      = some none := by
  induction rs generalizing m with
  | nil =>
    rcases h with h | ⟨r, hr, _⟩
    · exact h
    · simp at hr
  | cons r1 rest ih =>
    simp only [List.foldl_cons]
    refine ih (objSet m (resourceKeyTitle r1) none) ?_
    by_cases hk : resourceKeyTitle r1 = k
    · left
      rw [← hk]
      exact jsLookup_objSet_self ..
    · rcases h with h | ⟨r, hr, hrk⟩
      · left
        rw [jsLookup_objSet_ne _ _ _ _ (fun hkk => hk hkk.symm)]
        exact h
      · rcases List.mem_cons.mp hr with heq | hmem
        · exact absurd (heq ▸ hrk) hk
        · exact Or.inr ⟨r, hmem, hrk⟩

/-- C8: dereferencing a deferred reference whose target title has no
resolution-context entry at all, or only the `null` pass-1 placeholder
(pass 2 not yet finished for the target), makes the check throw: the
result is `thrown`, never a silent acceptance `ok` nor a silent rejection
`fail`.  The third conjunct applies this to the deferred reference built
by `fieldToZod` for an embedded field, the fourth to every entry of the
pass-1 context of the Graph Resolver. -/
theorem C8_unresolved_reference_throws :
    ∀ (fmtOK : StrFormat → String → Bool) (ctx : SchemaMap) (n : Nat)
      (nm : Option String) (v out : JSValue),
      (jsLookup ctx (nm.getD "undefined") = none →
        check fmtOK ctx (n + 1) (.lazyRef nm) v = .thrown ∧
        check fmtOK ctx (n + 1) (.lazyRef nm) v ≠ .ok out ∧
        check fmtOK ctx (n + 1) (.lazyRef nm) v ≠ .fail) ∧
      (jsLookup ctx (nm.getD "undefined") = some none →
        check fmtOK ctx (n + 1) (.lazyRef nm) v = .thrown ∧
        check fmtOK ctx (n + 1) (.lazyRef nm) v ≠ .ok out ∧
        check fmtOK ctx (n + 1) (.lazyRef nm) v ≠ .fail) ∧
      (∀ (f : Field) (e : EmbeddedResource),
        f.enum = none → f.reference = none → f.embedded = some e →
        jsLookup ctx ((jsOrS e.title e.name).getD "undefined") = none →
        check fmtOK ctx (n + 1) (fieldBaseSchema f) v = .thrown) ∧
      (∀ (rs : List Resource) (r : Resource), r ∈ rs →
        check fmtOK (registerPlaceholders rs) (n + 1)
          (.lazyRef (some (resourceKeyTitle r))) v = .thrown) := by
  intro fmtOK ctx n nm v out
  refine ⟨?_, ?_, ?_, ?_⟩
  · intro h
    refine ⟨by simp [check_succ, checkStep, h], ?_, ?_⟩ <;>
      simp [check_succ, checkStep, h]
  · intro h
    refine ⟨by simp [check_succ, checkStep, h], ?_, ?_⟩ <;>
      simp [check_succ, checkStep, h]
  · intro f e h1 h2 h3 h4
    simp [fieldBaseSchema, h1, h2, h3, check_succ, checkStep, h4]
  · intro rs r hr
    have hlk : jsLookup (registerPlaceholders rs) (resourceKeyTitle r) = some none :=
      placeholders_lookup rs [] _ (Or.inr ⟨r, hr, rfl⟩)
    simp [check_succ, checkStep, hlk]

/-- Witness for C8 at an empty context. -/
theorem C8_unresolved_reference_throws_witness :
    check (fun _ _ => true) [] 1 (.lazyRef (some "Missing")) .null = .thrown ∧
    check (fun _ _ => true) [] 1 (.lazyRef (some "Missing")) .null ≠ .ok .null ∧
    check (fun _ _ => true) [] 1 (.lazyRef (some "Missing")) .null ≠ .fail :=
  (C8_unresolved_reference_throws (fun _ _ => true) [] 0 (some "Missing")
    .null .null).1 rfl

theorem jsLookup_foldl_objSet_not_written (ps : List (String × α))
    (init : List (String × α)) (k : String) (h : ∀ p ∈ ps, p.1 ≠ k) :
    jsLookup (ps.foldl (fun acc p => objSet acc p.1 p.2) init) k = jsLookup init k := by
  induction ps generalizing init with
  | nil => rfl
  | cons p rest ih =>
    simp only [List.foldl_cons]
    rw [ih _ (fun q hq => h q (List.mem_cons_of_mem _ hq))]
    exact jsLookup_objSet_ne _ _ _ _
      (fun hk => h p (List.mem_cons_self ..) hk.symm)

theorem foldl_objSet_fresh (ps : List (String × α)) (init : List (String × α))
    (hnd : (ps.map Prod.fst).Nodup)
    (hdisj : ∀ k ∈ ps.map Prod.fst, k ∉ init.map Prod.fst) :
    ps.foldl (fun acc p => objSet acc p.1 p.2) init = init ++ ps := by
  induction ps generalizing init with
  | nil => simp
  | cons p rest ih =>
    simp only [List.foldl_cons]
    rw [objSet_of_not_mem _ _ _
      (hdisj p.1 (by simp))]
    rw [ih (init ++ [(p.1, p.2)]) ((List.nodup_cons.mp (by simpa using hnd)).2) ?_]
    · simp
    · intro k hk
      simp only [List.map_append, List.mem_append] at *
      rintro (hin | hsing)
      · exact hdisj k (by simp [hk]) hin
      · simp at hsing
        exact (List.nodup_cons.mp (by simpa using hnd)).1 (hsing ▸ hk)

/-- The shape of a resource schema written as a fold over key-schema
pairs (used to reason about `resourceShape` with association-list
lemmas). -/
theorem resourceShape_eq_foldl_pairs (r : Resource) (m : SchemaMap) :
    resourceShape r m =
      ((resourceFields r).map (fun f => (fieldKey f, fieldToZod f m))).foldl
        (fun acc p => objSet acc p.1 p.2)
        [("@id", Schema.string), ("@type", Schema.literal (jsOrS r.title r.name))] := by
  rw [resourceShape, List.foldl_map]

/-- C5: `resourceToSchema` builds a loose object whose fixed keys are
`@id` (plain string) and `@type` (literal `resource.title`, falling back
to `resource.name`), plus one entry per field of
`readableFields ?? fields ?? []`; a value whose `@type` does not equal
that literal is never accepted; when two fields share a name the later
schema silently overwrites the earlier one. -/
theorem C5_resource_schema :
    ∀ (r : Resource) (m : SchemaMap),
      (∀ fs, r.readableFields = some fs → resourceFields r = fs) ∧
      (∀ fs, r.readableFields = none → r.fields = some fs → resourceFields r = fs) ∧
      (r.readableFields = none → r.fields = none → resourceFields r = []) ∧
      (((resourceFields r).map fieldKey).Nodup →
        "@id" ∉ (resourceFields r).map fieldKey →
        "@type" ∉ (resourceFields r).map fieldKey →
        resourceToSchema r m = .looseObject
          ([("@id", Schema.string), ("@type", Schema.literal (jsOrS r.title r.name))] ++
            (resourceFields r).map (fun f => (fieldKey f, fieldToZod f m)))) ∧
      (∀ (fmtOK : StrFormat → String → Bool) (ctx : SchemaMap) (n : Nat)
        (kvs : List (String × JSValue)) (w out : JSValue) (t : String),
        (∀ f ∈ resourceFields r, fieldKey f ≠ "@type") →
        jsOrS r.title r.name = some t →
        jsLookup kvs "@type" = some w → w ≠ .str t →
        check fmtOK ctx n (resourceToSchema r m) (.obj kvs) ≠ .ok out) ∧
      (∀ f1 f2 : Field, fieldKey f2 = fieldKey f1 →
        jsLookup (resourceShape { fields := some [f1, f2] } m) (fieldKey f1)
          = some (fieldToZod f2 m)) := by
  intro r m
  refine ⟨?_, ?_, ?_, ?_, ?_, ?_⟩
  · intro fs h
    simp [resourceFields, h]
  · intro fs h1 h2
    simp [resourceFields, h1, h2]
  · intro h1 h2
    simp [resourceFields, h1, h2]
  · intro hnd hid htype
    rw [resourceToSchema, resourceShape_eq_foldl_pairs]
    rw [foldl_objSet_fresh]
    · simpa [List.map_map, Function.comp] using hnd
    · intro k hk
      simp only [List.map_map] at hk
      obtain ⟨f, hf, hkey⟩ := List.mem_map.mp hk
      have hkf : fieldKey f = k := hkey
      have hkmem : k ∈ (resourceFields r).map fieldKey :=
        hkf ▸ List.mem_map_of_mem fieldKey hf
      simp only [List.map_cons, List.map_nil, List.mem_cons, List.not_mem_nil,
        or_false]
      rintro (h1 | h1)
      · exact hid (h1 ▸ hkmem)
      · exact htype (h1 ▸ hkmem)
  · intro fmtOK ctx n kvs w out t hfk htitle hw hneq
    cases n with
    | zero => simp [check_zero]
    | succ n1 =>
      intro hok
      rw [resourceToSchema] at hok
      simp only [check_succ, checkStep] at hok
      rcases hsg : shapeGo (check fmtOK ctx n1) kvs (resourceShape r m)
        with outs | _ | _ | _
      case fail => rw [hsg] at hok; simp at hok
      case thrown => rw [hsg] at hok; simp at hok
      case nofuel => rw [hsg] at hok; simp at hok
      have hshape : jsLookup (resourceShape r m) "@type"
          = some (Schema.literal (some t)) := by
        rw [resourceShape_eq_foldl_pairs, jsLookup_foldl_objSet_not_written]
        · simp [jsLookup, htitle]
        · intro p hp
          simp only [List.mem_map] at hp
          obtain ⟨f, hf, hpf⟩ := hp
          rw [← hpf]
          exact hfk f hf
      obtain ⟨o, ho⟩ := shapeGo_ok_mem _ _ _ _ _ _ hsg
        (mem_of_jsLookup_eq_some _ _ _ hshape)
      rw [hw] at ho
      cases n1 with
      | zero => rw [check_zero] at ho; exact absurd ho (by simp)
      | succ n2 =>
        rw [check_succ] at ho
        cases w with
        | str s =>
          by_cases hst : s = t
          · exact hneq (by rw [hst])
          · simp [checkStep, hst] at ho
        | null => simp [checkStep] at ho
        | undef => simp [checkStep] at ho
        | bool b => simp [checkStep] at ho
        | num q => simp [checkStep] at ho
        | arr xs => simp [checkStep] at ho
        | obj kvs2 => simp [checkStep] at ho
  · intro f1 f2 hk
    simp only [resourceShape, resourceFields, List.foldl_cons, List.foldl_nil]
    rw [hk]
    exact jsLookup_objSet_self ..

/-- Witness for C5: a resource with two same-named fields, checked both
for the shape equation and the overwrite rule. -/
theorem C5_resource_schema_witness :
    resourceToSchema
      { title := some "Book",
        fields := some [{ name := some "title", type := some "string" }] } []
      = .looseObject
          [("@id", Schema.string), ("@type", Schema.literal (some "Book")),
           ("title", Schema.string)] :=
  (C5_resource_schema
      { title := some "Book",
        fields := some [{ name := some "title", type := some "string" }] } []).2.2.2.1
    (by decide) (by decide) (by decide)

theorem substEntries_keys (kvs outs : List (String × JSValue)) :
    (substEntries kvs outs).map Prod.fst = kvs.map Prod.fst := by
  simp [substEntries, List.map_map]

/-- Core tolerance property of loose objects: appending an entry whose
key is neither declared in the shape nor already present in the value
changes neither acceptance nor rejection, and on acceptance the appended
entry survives unchanged in the output. -/
theorem looseObject_append_extra (fmtOK : StrFormat → String → Bool)
    (ctx : SchemaMap) (n : Nat) (shape : List (String × Schema))
    (kvs : List (String × JSValue)) (k : String) (w : JSValue)
    (h1 : k ∉ shape.map Prod.fst) (h2 : k ∉ kvs.map Prod.fst) :
    ((∃ o, check fmtOK ctx n (.looseObject shape) (.obj (kvs ++ [(k, w)])) = .ok o) ↔
      (∃ o, check fmtOK ctx n (.looseObject shape) (.obj kvs) = .ok o)) ∧
    (∀ outs, check fmtOK ctx n (.looseObject shape) (.obj kvs) = .ok (.obj outs) →
      ∃ outs2, check fmtOK ctx n (.looseObject shape) (.obj (kvs ++ [(k, w)]))
          = .ok (.obj outs2) ∧ jsLookup outs2 k = some w) := by
  cases n with
  | zero =>
    refine ⟨by simp [check_zero], ?_⟩
    intro outs habs
    rw [check_zero] at habs
    exact absurd habs (by simp)
  | succ n1 =>
    have hsg := shapeGo_append_extra (check fmtOK ctx n1) kvs k w shape h1
    rcases hres : shapeGo (check fmtOK ctx n1) kvs shape with outs0 | _ | _ | _
    · have hnone : jsLookup outs0 k = none := by
        refine jsLookup_eq_none_of_not_mem _ _ ?_
        rw [shapeGo_ok_keys _ _ _ _ hres]
        exact h1
      have hsub : substEntries (kvs ++ [(k, w)]) outs0
          = substEntries kvs outs0 ++ [(k, w)] := by
        simp [substEntries, List.map_append, hnone]
      constructor
      · simp [check_succ, checkStep, hres, hsg]
      · intro outs houts
        refine ⟨substEntries kvs outs0 ++ [(k, w)], ?_, ?_⟩
        · simp [check_succ, checkStep, hsg, hres, hsub]
        · rw [jsLookup_append]
          have hn2 : jsLookup (substEntries kvs outs0) k = none := by
            refine jsLookup_eq_none_of_not_mem _ _ ?_
            rw [substEntries_keys]
            exact h2
          simp [hn2, jsLookup]
    · refine ⟨by simp [check_succ, checkStep, hres, hsg], ?_⟩
      intro outs habs
      simp [check_succ, checkStep, hres] at habs
    · refine ⟨by simp [check_succ, checkStep, hres, hsg], ?_⟩
      intro outs habs
      simp [check_succ, checkStep, hres] at habs
    · refine ⟨by simp [check_succ, checkStep, hres, hsg], ?_⟩
      intro outs habs
      simp [check_succ, checkStep, hres] at habs

/-- C6: loose objects tolerate undeclared keys: for a resource schema
and for the collection envelope, a value carrying an extra undeclared key
is accepted exactly when the value without it is, and the extra key
remains present and unchanged in the accepted result (neither stripped
nor a cause of rejection). -/
theorem C6_extra_keys_tolerated :
    ∀ (fmtOK : StrFormat → String → Bool) (ctx : SchemaMap) (n : Nat)
      (kvs : List (String × JSValue)) (k : String) (w : JSValue),
      k ∉ kvs.map Prod.fst →
      (∀ (r : Resource) (m : SchemaMap),
        k ∉ (resourceShape r m).map Prod.fst →
        ((∃ o, check fmtOK ctx n (resourceToSchema r m) (.obj (kvs ++ [(k, w)]))
            = .ok o) ↔
          (∃ o, check fmtOK ctx n (resourceToSchema r m) (.obj kvs) = .ok o)) ∧
        (∀ outs, check fmtOK ctx n (resourceToSchema r m) (.obj kvs)
            = .ok (.obj outs) →
          ∃ outs2, check fmtOK ctx n (resourceToSchema r m) (.obj (kvs ++ [(k, w)]))
              = .ok (.obj outs2) ∧ jsLookup outs2 k = some w)) ∧
      (∀ item : Schema,
        k ∉ (["@id", "@type", "totalItems", "member", "view", "search"] : List String) →
        ((∃ o, check fmtOK ctx n (collectionSchema item) (.obj (kvs ++ [(k, w)]))
            = .ok o) ↔
          (∃ o, check fmtOK ctx n (collectionSchema item) (.obj kvs) = .ok o)) ∧
        (∀ outs, check fmtOK ctx n (collectionSchema item) (.obj kvs)
            = .ok (.obj outs) →
          ∃ outs2, check fmtOK ctx n (collectionSchema item) (.obj (kvs ++ [(k, w)]))
              = .ok (.obj outs2) ∧ jsLookup outs2 k = some w)) := by
  intro fmtOK ctx n kvs k w h2
  constructor
  · intro r m h1
    exact looseObject_append_extra fmtOK ctx n (resourceShape r m) kvs k w h1 h2
  · intro item h1
    refine looseObject_append_extra fmtOK ctx n _ kvs k w ?_ h2
    simpa [collectionSchema] using h1

/-- Witness for C6: an extra key on a fieldless resource value. -/
theorem C6_extra_keys_tolerated_witness :
    (∃ o, check (fun _ _ => true) [] 3
        (resourceToSchema { title := some "Book" } [])
        (.obj ([("@id", .str "/b/1"), ("@type", .str "Book")] ++
          [("extra", .num 7)])) = .ok o) ↔
    (∃ o, check (fun _ _ => true) [] 3
        (resourceToSchema { title := some "Book" } [])
        (.obj [("@id", .str "/b/1"), ("@type", .str "Book")]) = .ok o) := by
  have h := (C6_extra_keys_tolerated (fun _ _ => true) [] 3
      [("@id", .str "/b/1"), ("@type", .str "Book")] "extra" (.num 7)
      (by decide)).1 ({ title := some "Book" } : Resource) [] (by decide)
  exact h.1

/-- A successful loose-object check at some fuel forces every declared
entry to check successfully at the predecessor fuel. -/
theorem check_looseObject_ok_mem (fmtOK : StrFormat → String → Bool)
    (ctx : SchemaMap) (n : Nat) (shape : List (String × Schema))
    (kvs : List (String × JSValue)) (out : JSValue) (k : String) (s : Schema)
    (h : check fmtOK ctx n (.looseObject shape) (.obj kvs) = .ok out)
    (hmem : (k, s) ∈ shape) :
    ∃ n2, n = n2 + 1 ∧ ∃ o, check fmtOK ctx n2 s ((jsLookup kvs k).getD .undef) = .ok o := by
  cases n with
  | zero => rw [check_zero] at h; exact absurd h (by simp)
  | succ n2 =>
    rw [check_succ] at h
    simp only [checkStep] at h
    rcases hsg : shapeGo (check fmtOK ctx n2) kvs shape with outs | _ | _ | _ <;>
      rw [hsg] at h
    · exact ⟨n2, rfl, shapeGo_ok_mem _ _ _ _ _ _ hsg hmem⟩
    · simp at h
    · simp at h
    · simp at h

/-- Every collection recorded by pass 3 of the Graph Resolver is a
`preStrip` around a collection envelope: invariant of the fold. -/
theorem fold_collections_preStrip (g : Resource → Schema) (rs : List Resource) :
    ∀ acc : List (String × Schema),
      (∀ k c, jsLookup acc k = some c → ∃ i, c = .preStrip (collectionSchema i)) →
      ∀ k c,
        jsLookup (rs.foldl (fun cs r =>
            objSet cs (resourceKeyName r) (.preStrip (collectionSchema (g r)))) acc) k
          = some c →
        ∃ i, c = .preStrip (collectionSchema i) := by
  induction rs with
  | nil => exact fun acc hacc k c h => hacc k c h
  | cons r rest ih =>
    intro acc hacc k c h
    simp only [List.foldl_cons] at h
    refine ih _ ?_ k c h
    intro k2 c2 h2
    by_cases hk : k2 = resourceKeyName r
    · subst hk
      rw [jsLookup_objSet_self] at h2
      injection h2 with h3
      exact ⟨g r, h3.symm⟩
    · rw [jsLookup_objSet_ne _ _ _ _ hk] at h2
      exact hacc k2 c2 h2

/-- C9: the collection envelope accepts a value carrying `@id` (string),
`@type` (string), `totalItems` (integer) and `member` (array of valid
items) even with `view` and `search` absent; it never accepts a value
omitting `totalItems` or omitting `member`; a `preStrip` wrapper checks
the hydra-stripped value against its inner schema; and every collection
recorded by `schemasFromResources` is such a `preStrip` around a
collection envelope. -/
theorem C9_collection_envelope :
    ∀ (fmtOK : StrFormat → String → Bool) (ctx : SchemaMap) (n : Nat)
      (item : Schema) (kvs : List (String × JSValue)),
      (∀ (a b : String) (q : Rat) (xs : List JSValue),
        jsLookup kvs "@id" = some (.str a) →
        jsLookup kvs "@type" = some (.str b) →
        jsLookup kvs "totalItems" = some (.num q) → q.den = 1 →
        jsLookup kvs "member" = some (.arr xs) →
        jsLookup kvs "view" = none → jsLookup kvs "search" = none →
        (∀ x ∈ xs, ∃ o, check fmtOK ctx n item x = .ok o) →
        ∃ out, check fmtOK ctx (n + 2) (collectionSchema item) (.obj kvs) = .ok out) ∧
      (jsLookup kvs "totalItems" = none →
        ∀ (out : JSValue) (m2 : Nat),
          check fmtOK ctx m2 (collectionSchema item) (.obj kvs) ≠ .ok out) ∧
      (jsLookup kvs "member" = none →
        ∀ (out : JSValue) (m2 : Nat),
          check fmtOK ctx m2 (collectionSchema item) (.obj kvs) ≠ .ok out) ∧
      (∀ (s : Schema) (v : JSValue),
        check fmtOK ctx (n + 1) (.preStrip s) v
          = check fmtOK ctx n s (stripHydraPrefix v)) ∧
      (∀ (rs : List Resource) (nm : String) (c : Schema),
        jsLookup (schemasFromResources rs).collections nm = some c →
        ∃ itemSchema, c = .preStrip (collectionSchema itemSchema)) := by
  intro fmtOK ctx n item kvs
  refine ⟨?_, ?_, ?_, fun s v => rfl, ?_⟩
  · intro a b q xs hid htype htot hden hmemb hview hsearch hall
    obtain ⟨os, hos⟩ := arrGo_ok_of_all (check fmtOK ctx n item) xs hall
    refine ⟨.obj (substEntries kvs
      [("@id", .str a), ("@type", .str b), ("totalItems", .num q),
       ("member", .arr os), ("view", .undef), ("search", .undef)]), ?_⟩
    rw [show n + 2 = (n + 1) + 1 from rfl, check_succ]
    simp [checkStep, collectionSchema, shapeGo, sCons, hid, htype, htot, hmemb,
      hview, hsearch, check_succ, hden, hos]
  · intro htot out m2 hok
    obtain ⟨m3, hm, o, ho⟩ := check_looseObject_ok_mem fmtOK ctx m2 _ kvs out
      "totalItems" (.int none none) hok (by simp [collectionSchema])
    rw [htot] at ho
    cases m3 with
    | zero => rw [check_zero] at ho; exact absurd ho (by simp)
    | succ m4 =>
      rw [check_succ] at ho
      simp [checkStep] at ho
  · intro hmemb out m2 hok
    obtain ⟨m3, hm, o, ho⟩ := check_looseObject_ok_mem fmtOK ctx m2 _ kvs out
      "member" (.array item) hok (by simp [collectionSchema])
    rw [hmemb] at ho
    cases m3 with
    | zero => rw [check_zero] at ho; exact absurd ho (by simp)
    | succ m4 =>
      rw [check_succ] at ho
      simp [checkStep] at ho
  · intro rs nm c h
    simp only [schemasFromResources] at h
    exact fold_collections_preStrip _ rs []
      (by intro k c2 hc; simp [jsLookup] at hc) nm c h

/-- Witness for C9 at a concrete one-member collection of strings. -/
theorem C9_collection_envelope_witness :
    ∃ out, check (fun _ _ => true) [] 3 (collectionSchema .string)
      (.obj [("@id", .str "/books"), ("@type", .str "Collection"),
             ("totalItems", .num 2), ("member", .arr [.str "x"])]) = .ok out :=
  (C9_collection_envelope (fun _ _ => true) [] 1 .string
      [("@id", .str "/books"), ("@type", .str "Collection"),
       ("totalItems", .num 2), ("member", .arr [.str "x"])]).1
    "/books" "Collection" 2 [.str "x"] rfl rfl rfl (by decide) rfl rfl rfl
    (by intro x hx
        simp only [List.mem_singleton] at hx
        subst hx
        exact ⟨.str "x", rfl⟩)

/-- C7: two resources that embed each other (A embeds B through a field,
B embeds A through an array) are both resolved by `schemasFromResources`
(a total function, so the two-pass resolution terminates) to finished
loose-object schemas, and the concrete value nesting A into B into an
empty array validates successfully, with fuel 6, against the schema of A
under the final resolution context. -/
theorem C7_circular_references :
    ∀ (tA tB : String), tA ≠ tB → tA ≠ "" → tB ≠ "" →
    ∀ fmtOK : StrFormat → String → Bool,
      (∃ shA, jsLookup (schemasFromResources
          [{ title := some tA,
             fields := some [{ name := some "title", type := some "string" },
                             { name := some "author",
                               embedded := some { title := some tB } }] },
           { title := some tB,
             fields := some [{ name := some "name", type := some "string" },
                             { name := some "books",
                               embedded := some { title := some tA },
                               maxCardinality := some none }] }]).schemaMap tA
          = some (some (.looseObject shA))) ∧
      (∃ shB, jsLookup (schemasFromResources
          [{ title := some tA,
             fields := some [{ name := some "title", type := some "string" },
                             { name := some "author",
                               embedded := some { title := some tB } }] },
           { title := some tB,
             fields := some [{ name := some "name", type := some "string" },
                             { name := some "books",
                               embedded := some { title := some tA },
                               maxCardinality := some none }] }]).schemaMap tB
          = some (some (.looseObject shB))) ∧
      (∃ sA, jsLookup (schemasFromResources
          [{ title := some tA,
             fields := some [{ name := some "title", type := some "string" },
                             { name := some "author",
                               embedded := some { title := some tB } }] },
           { title := some tB,
             fields := some [{ name := some "name", type := some "string" },
                             { name := some "books",
                               embedded := some { title := some tA },
                               maxCardinality := some none }] }]).schemas tA
          = some sA ∧
        check fmtOK (schemasFromResources
          [{ title := some tA,
             fields := some [{ name := some "title", type := some "string" },
                             { name := some "author",
                               embedded := some { title := some tB } }] },
           { title := some tB,
             fields := some [{ name := some "name", type := some "string" },
                             { name := some "books",
                               embedded := some { title := some tA },
                               maxCardinality := some none }] }]).schemaMap 6 sA
          (.obj [("@id", .str "/a/1"), ("@type", .str tA), ("title", .str "t"),
                 ("author", .obj [("@id", .str "/b/1"), ("@type", .str tB),
                                  ("name", .str "n"), ("books", .arr [])])])
          = .ok (.obj [("@id", .str "/a/1"), ("@type", .str tA), ("title", .str "t"),
                 ("author", .obj [("@id", .str "/b/1"), ("@type", .str tB),
                                  ("name", .str "n"), ("books", .arr [])])])) := by
  intro tA tB h1 h2 h3 fmtOK
  have hmap : (schemasFromResources
      [{ title := some tA,
         fields := some [{ name := some "title", type := some "string" },
                         { name := some "author",
                           embedded := some { title := some tB } }] },
       { title := some tB,
         fields := some [{ name := some "name", type := some "string" },
                         { name := some "books",
                           embedded := some { title := some tA },
                           maxCardinality := some none }] }]).schemaMap
      = [(tA, some (.looseObject
            [("@id", .string), ("@type", .literal (some tA)),
             ("title", .string), ("author", .lazyRef (some tB))])),
         (tB, some (.looseObject
            [("@id", .string), ("@type", .literal (some tB)),
             ("name", .string), ("books", .array (.lazyRef (some tA)))]))] := by
    simp [schemasFromResources, registerPlaceholders, resourceKeyTitle,
      resourceKeyName, resourceToSchema, resourceShape, resourceFields,
      fieldToZod, fieldBaseSchema, fieldKey, baseTypeToZod, STRING_TYPES,
      jsOrS, jsTruthyS, objSet, jsLookup, h1, h2, h3, Ne.symm h1]
  have hschemas : (schemasFromResources
      [{ title := some tA,
         fields := some [{ name := some "title", type := some "string" },
                         { name := some "author",
                           embedded := some { title := some tB } }] },
       { title := some tB,
         fields := some [{ name := some "name", type := some "string" },
                         { name := some "books",
                           embedded := some { title := some tA },
                           maxCardinality := some none }] }]).schemas
      = [(tA, .looseObject
            [("@id", .string), ("@type", .literal (some tA)),
             ("title", .string), ("author", .lazyRef (some tB))]),
         (tB, .looseObject
            [("@id", .string), ("@type", .literal (some tB)),
             ("name", .string), ("books", .array (.lazyRef (some tA)))])] := by
    simp [schemasFromResources, registerPlaceholders, resourceKeyTitle,
      resourceKeyName, resourceToSchema, resourceShape, resourceFields,
      fieldToZod, fieldBaseSchema, fieldKey, baseTypeToZod, STRING_TYPES,
      jsOrS, jsTruthyS, objSet, jsLookup, h1, h2, h3, Ne.symm h1]
  refine ⟨⟨[("@id", Schema.string), ("@type", Schema.literal (some tA)),
            ("title", Schema.string), ("author", Schema.lazyRef (some tB))],
           by simp only [hmap]; simp [jsLookup]⟩,
          ⟨[("@id", Schema.string), ("@type", Schema.literal (some tB)),
            ("name", Schema.string), ("books", Schema.array (Schema.lazyRef (some tA)))],
           by simp only [hmap]; simp [jsLookup, h1, Ne.symm h1]⟩,
          ⟨Schema.looseObject
            [("@id", Schema.string), ("@type", Schema.literal (some tA)),
             ("title", Schema.string), ("author", Schema.lazyRef (some tB))],
           by simp only [hschemas]; simp [jsLookup], ?_⟩⟩
  simp [hmap, hschemas, check, checkStep, shapeGo, sCons, arrGo, aCons,
    substEntries, jsLookup, h1, h2, h3, Ne.symm h1]

/-- Witness for C7 at the concrete titles Book and Author. -/
theorem C7_circular_references_witness :
    ∃ sA, jsLookup (schemasFromResources
        [{ title := some "Book",
           fields := some [{ name := some "title", type := some "string" },
                           { name := some "author",
                             embedded := some { title := some "Author" } }] },
         { title := some "Author",
           fields := some [{ name := some "name", type := some "string" },
                           { name := some "books",
                             embedded := some { title := some "Book" },
                             maxCardinality := some none }] }]).schemas "Book"
        = some sA ∧
      check (fun _ _ => true) (schemasFromResources
        [{ title := some "Book",
           fields := some [{ name := some "title", type := some "string" },
                           { name := some "author",
                             embedded := some { title := some "Author" } }] },
         { title := some "Author",
           fields := some [{ name := some "name", type := some "string" },
                           { name := some "books",
                             embedded := some { title := some "Book" },
                             maxCardinality := some none }] }]).schemaMap 6 sA
        (.obj [("@id", .str "/a/1"), ("@type", .str "Book"), ("title", .str "t"),
               ("author", .obj [("@id", .str "/b/1"), ("@type", .str "Author"),
                                ("name", .str "n"), ("books", .arr [])])])
        = .ok (.obj [("@id", .str "/a/1"), ("@type", .str "Book"), ("title", .str "t"),
               ("author", .obj [("@id", .str "/b/1"), ("@type", .str "Author"),
                                ("name", .str "n"), ("books", .arr [])])]) :=
  (C7_circular_references "Book" "Author" (by decide) (by decide) (by decide)
    (fun _ _ => true)).2.2



end ApiZod
